import Mathlib

/-!
Shallow embedding of the QR pallet-label system (`src/main.py`): the payload
decoder `parse_qr_payload`, the deduplicating SQLite-backed store
(`save_scan` / `fetch_latest_scans`), and the label generator's payload
construction (`generar_y_imprimir_qrs`).  Python strings are modelled as
Lean `String` (operated on through their `List Char` data); Python `dict`
as an insertion-ordered association list; the SQLite table as a `List` of
rows in insertion (rowid) order.
-/

namespace QrTalca

/-- Characters removed by Python's `str.strip()` (ASCII whitespace). -/
def pySpace (c : Char) : Bool :=
  c = ' ' || c = '\t' || c = '\n' || c = '\r' || c = '\x0b' || c = '\x0c'

/-- Model of `str.strip()` on the character list. -/
def pyStripList (l : List Char) : List Char :=
  ((l.dropWhile pySpace).reverse.dropWhile pySpace).reverse

/-- Model of `str.strip()`. -/
def pyStrip (s : String) : String := ⟨pyStripList s.data⟩

/-- Model of Python's `c in s` for a single character `c`. -/
def hasChar (s : String) (c : Char) : Bool := s.data.any (fun a => a = c)

/-- Model of `s.split(sep)` for a one-character separator: worker. -/
def splitCharGo (c : Char) : List Char → List Char → List String
  | [], acc => [⟨acc.reverse⟩]
  | x :: rest, acc =>
      if x = c then ⟨acc.reverse⟩ :: splitCharGo c rest []
      else splitCharGo c rest (x :: acc)

/-- Model of `s.split(sep)` for a one-character separator. -/
def pySplit (c : Char) (s : String) : List String := splitCharGo c s.data []

/-- Model of `s.split(sep, 1)` when it yields two pieces, i.e. the split at
the first occurrence of `c`; `none` when `c` does not occur in `s`. -/
def splitFirst (c : Char) (s : String) : Option (String × String) :=
  let pre := s.data.takeWhile (fun a => a ≠ c)
  match s.data.dropWhile (fun a => a ≠ c) with
  | [] => none
  | _ :: rest => some (⟨pre⟩, ⟨rest⟩)

/-- ASCII lower-casing of one character (model of `str.lower`). -/
def lowerChar (c : Char) : Char :=
  if 'A' ≤ c ∧ c ≤ 'Z' then Char.ofNat (c.toNat + 32) else c

/-- Model of `s.lower()` (ASCII letters only). -/
def pyLower (s : String) : String := ⟨s.data.map lowerChar⟩

/-- Model of `s.startswith(p)`. -/
def pyStartsWith (s p : String) : Bool := p.data.isPrefixOf s.data

/-- Model of `str.splitlines`: worker over the remaining characters and the
reversed current line. -/
def splitlinesGo : List Char → List Char → List String
  | [], acc => if acc.isEmpty then [] else [⟨acc.reverse⟩]
  | '\r' :: '\n' :: rest, acc => ⟨acc.reverse⟩ :: splitlinesGo rest []
  | '\r' :: rest, acc => ⟨acc.reverse⟩ :: splitlinesGo rest []
  | '\n' :: rest, acc => ⟨acc.reverse⟩ :: splitlinesGo rest []
  | c :: rest, acc => splitlinesGo rest (c :: acc)

/-- Model of `s.splitlines()` (the line boundaries occurring in QR text:
`\n`, `\r`, `\r\n`). -/
def pySplitlines (s : String) : List String := splitlinesGo s.data []

/-- Decimal value of a digit list, as folded by positional reading. -/
def digitFold (l : List Char) : Nat :=
  l.foldl (fun a c => a * 10 + (c.toNat - 48)) 0

/-- Value of a non-empty all-digit character list, else `none`. -/
def digitsVal (l : List Char) : Option Nat :=
  if l.isEmpty then none
  else if l.all Char.isDigit then some (digitFold l) else none

/-- Model of Python `int(s)`: surrounding whitespace stripped, one optional
sign, then one or more decimal digits. -/
def pyInt (s : String) : Option Int :=
  match pyStripList s.data with
  | [] => none
  | c :: rest =>
      if c = '+' then (digitsVal rest).map Int.ofNat
      else if c = '-' then (digitsVal rest).map (fun k => -(k : Int))
      else (digitsVal (c :: rest)).map Int.ofNat

/-- One decoded, accepted label instance (a row of `pallet_scans`). -/
structure ScanRecord where
  descripcion : String
  nro_serie : Int
  id_producto : String
  lote : String
  creacion : String
  vencimiento : String
deriving DecidableEq

/-- Decoder outcomes of `parse_qr_payload` that are not a record.  The first
four are the typed failures of the specification (`ValueError`s in the
source); `LineNoColon l` is the uncaught `IndexError` that
`l.split(":", 1)[1]` raises inside `pick` when the matching line `l`
contains no colon. -/
inductive DecodeError where
  | UnrecognizedFormat : DecodeError
  | MissingFields : List String → DecodeError
  | InvalidSerial : String → DecodeError
  | LegacyFieldsMissing : DecodeError
  | LineNoColon : String → DecodeError
deriving DecidableEq

/-- The required primary-format keys, in the order the source lists them. -/
def requiredKeys : List String := ["NS", "PRD", "DSC", "LOT", "FEC", "VTO"]

/-- Python `dict` assignment `d[k] = v`: overwrite in place, else append. -/
def dictInsert (d : List (String × String)) (k v : String) :
    List (String × String) :=
  if d.any (fun q => q.1 = k) then
    d.map (fun q => if q.1 = k then (k, v) else q)
  else d ++ [(k, v)]

/-- Python `dict` lookup (first entry with the key; keys are unique). -/
def dictGet (d : List (String × String)) (k : String) : Option String :=
  (d.find? (fun q => q.1 = k)).map (fun q => q.2)

/-- The `data` dict built by the primary-format loop: each segment containing
`=` is split at its first `=`, both halves stripped, and assigned. -/
def buildData (parts : List String) : List (String × String) :=
  parts.foldl
    (fun d p =>
      match splitFirst '=' p with
      | some (k, v) => dictInsert d (pyStrip k) (pyStrip v)
      | none => d)
    []

/-- A required key counts as missing when absent or bound to `""`
(`k not in data or not data[k]`). -/
def missingKey (d : List (String × String)) (k : String) : Bool :=
  match dictGet d k with
  | none => true
  | some v => v = ""

/-- Primary-format decoding of the `|`-separated segments (the body of the
first branch of `parse_qr_payload`). -/
def parsePrimaryParts (parts : List String) : Except DecodeError ScanRecord :=
  if (requiredKeys.filter (fun k => missingKey (buildData parts) k)).isEmpty then
    match pyInt ((dictGet (buildData parts) "NS").getD "") with
    | none => .error (.InvalidSerial ((dictGet (buildData parts) "NS").getD ""))
    | some n =>
        .ok { descripcion := (dictGet (buildData parts) "DSC").getD ""
              nro_serie := n
              id_producto := (dictGet (buildData parts) "PRD").getD ""
              lote := (dictGet (buildData parts) "LOT").getD ""
              creacion := (dictGet (buildData parts) "FEC").getD ""
              vencimiento := (dictGet (buildData parts) "VTO").getD "" }
  else .error (.MissingFields
    (requiredKeys.filter (fun k => missingKey (buildData parts) k)))

/-- The non-empty, stripped lines of a legacy payload. -/
def legacyLines (r : String) : List String :=
  ((pySplitlines r).map pyStrip).filter (fun l => l ≠ "")

/-- The legacy `pick(prefix)` helper: the value after the first `:` of the
first line whose lower-cased form starts with the lower-cased label; `none`
when no line matches; an uncaught `IndexError` (modelled as the
`LineNoColon` outcome) when the matching line has no colon. -/
def pick (lines : List String) (lbl : String) :
    Except DecodeError (Option String) :=
  match lines.find? (fun l => pyStartsWith (pyLower l) (pyLower lbl)) with
  | none => .ok none
  | some l =>
      match splitFirst ':' l with
      | some q => .ok (some (pyStrip q.2))
      | none => .error (.LineNoColon l)

/-- Python truthiness of `pick`'s result: a non-`None`, non-empty string. -/
def truthy : Option String → Bool
  | none => false
  | some v => v ≠ ""

/-- A chain `pick(a) or pick(b) or ...`: each falsy result (either `None` or
`""`) moves on to the next label; the last label's result is returned as
is. -/
def orPick (lines : List String) : List String → Except DecodeError (Option String)
  | [] => .ok none
  | [lbl] => pick lines lbl
  | lbl :: rest => do
      let v ← pick lines lbl
      if truthy v then pure v else orPick lines rest

/-- The source's `known_prefixes` tuple (already lower-case). -/
def knownLabels : List String :=
  ["num de serie", "n de serie", "n° de serie",
   "id producto", "lote", "creacion", "creación", "vencimiento"]

/-- A line recognized as a field label line (excluded from description
candidates). -/
def isKnownLine (l : String) : Bool :=
  knownLabels.any (fun p => pyStartsWith (pyLower l) p)

/-- Leap-year rule used by `datetime.date`. -/
def isLeap (y : Nat) : Bool :=
  (y % 4 = 0 && y % 100 ≠ 0) || y % 400 = 0

/-- Days in a month, as validated by `datetime.date`. -/
def daysInMonth (y m : Nat) : Nat :=
  if m = 2 then (if isLeap y then 29 else 28)
  else if m = 4 || m = 6 || m = 9 || m = 11 then 30
  else 31

/-- A day or month field of `strptime("%d/%m/%y")`: one or two digits. -/
def fieldVal2 (s : String) : Option Nat :=
  if s.data.length = 1 || s.data.length = 2 then digitsVal s.data else none

/-- Model of `datetime.strptime(s, "%d/%m/%y")` followed by `.date()`:
`some (year, month, day)` exactly when the whole string is
day `/` month `/` two-digit year with a valid calendar date.  Two-digit
years map to 2000–2068 (`00`–`68`) or 1969–1999 (`69`–`99`). -/
def strptimeDMY (s : String) : Option (Nat × Nat × Nat) :=
  match pySplit '/' s with
  | [ds, ms, ys] =>
      match fieldVal2 ds, fieldVal2 ms, digitsVal ys.data with
      | some d, some m, some yy =>
          if ys.data.length = 2 then
            let y := if yy ≤ 68 then 2000 + yy else 1900 + yy
            if 1 ≤ d && 1 ≤ m && m ≤ 12 && d ≤ daysInMonth y m then
              some (y, m, d)
            else none
          else none
      | _, _, _ => none
  | _ => none

/-- Zero-padding to two digits, as in `date.isoformat()`. -/
def pad2 (n : Nat) : String := if n < 10 then "0" ++ toString n else toString n

/-- `date.isoformat()` for the years reachable from a two-digit year. -/
def isoFormat (y m d : Nat) : String :=
  toString y ++ "-" ++ pad2 m ++ "-" ++ pad2 d

/-- The legacy branch's `normalize_date`: a stripped value containing `/` is
parsed as `%d/%m/%y` and re-rendered in ISO form; on parse failure, or when
no `/` occurs, the stripped value passes through unchanged. -/
def normalize_date (s : String) : String :=
  let t := pyStrip s
  if hasChar t '/' then
    match strptimeDMY t with
    | some q => isoFormat q.1 q.2.1 q.2.2
    | none => t
  else t

/-- The legacy description: the first line matching no recognized label. -/
def legacyDesc (r : String) : String :=
  ((legacyLines r).filter (fun l => !(isKnownLine l))).headD ""

/-- Legacy-format decoding (the second branch of `parse_qr_payload`),
applied to the stripped raw payload. -/
def parseLegacy (r : String) : Except DecodeError ScanRecord := do
  let ns ← orPick (legacyLines r) ["Num de serie", "N de serie", "N° de serie"]
  let prd ← pick (legacyLines r) "ID producto"
  let lote ← pick (legacyLines r) "Lote"
  let cre ← orPick (legacyLines r) ["Creacion", "Creación"]
  let vto ← pick (legacyLines r) "Vencimiento"
  if truthy ns && truthy prd && truthy lote && truthy cre && truthy vto
      && legacyDesc r ≠ "" then
    match pyInt (ns.getD "") with
    | none => .error (.InvalidSerial (ns.getD ""))
    | some n =>
        .ok { descripcion := legacyDesc r
              nro_serie := n
              id_producto := prd.getD ""
              lote := lote.getD ""
              creacion := normalize_date (cre.getD "")
              vencimiento := normalize_date (vto.getD "") }
  else .error .LegacyFieldsMissing

/-- Format selection and decoding on the already-stripped payload. -/
def parseStripped (r : String) : Except DecodeError ScanRecord :=
  if hasChar r '|' && hasChar r '=' then parsePrimaryParts (pySplit '|' r)
  else if hasChar r '\n' then parseLegacy r
  else .error .UnrecognizedFormat

/-- The decoder `parse_qr_payload`: strip the raw payload, then select the
format and decode. -/
def parse_qr_payload (raw : String) : Except DecodeError ScanRecord :=
  parseStripped (pyStrip raw)

/-- Outcome of one `INSERT` into `pallet_scans`. -/
inductive InsertResult where
  | OK : InsertResult
  | DUP : InsertResult
deriving DecidableEq

/-- Equality on the composite uniqueness key `(id_producto, nro_serie, lote)`. -/
def sameTriple (a b : ScanRecord) : Bool :=
  a.id_producto = b.id_producto && a.nro_serie = b.nro_serie && a.lote = b.lote

/-- Whether some stored row already carries the record's key triple. -/
def hasTriple (db : List ScanRecord) (r : ScanRecord) : Bool :=
  db.any (fun x => sameTriple x r)

/-- One `INSERT` with the `UNIQUE(id_producto, nro_serie, lote)` constraint:
an `IntegrityError` is classified as `DUP` and leaves the table unchanged,
otherwise the row is appended and `OK` reported. -/
def insertScan (db : List ScanRecord) (r : ScanRecord) :
    InsertResult × List ScanRecord :=
  if hasTriple db r then (.DUP, db) else (.OK, db ++ [r])

/-- The orchestrating `save_scan`: decode, then insert. -/
def save_scan (db : List ScanRecord) (raw : String) :
    Except DecodeError (InsertResult × List ScanRecord) :=
  (parse_qr_payload raw).map (insertScan db)

/-- `fetch_latest_scans`: `ORDER BY rowid DESC LIMIT limit` over the rows in
insertion order. -/
def fetch_latest_scans (db : List ScanRecord) (limit : Nat) : List ScanRecord :=
  db.reverse.take limit

/-- A sequence of inserts, collecting each outcome and the final table. -/
def runInserts (db : List ScanRecord) : List ScanRecord →
    List InsertResult × List ScanRecord
  | [] => ([], db)
  | r :: rs =>
      let step := insertScan db r
      let rest := runInserts step.2 rs
      (step.1 :: rest.1, rest.2)

/-- Decimal digit characters. -/
def digitChar : Nat → Char
  | 0 => '0' | 1 => '1' | 2 => '2' | 3 => '3' | 4 => '4'
  | 5 => '5' | 6 => '6' | 7 => '7' | 8 => '8' | _ => '9'

/-- Decimal rendering of a natural number below the fuel bound. -/
def natToDigitsAux : Nat → Nat → List Char
  | 0, _ => []
  | fuel + 1, n =>
      if n < 10 then [digitChar n]
      else natToDigitsAux fuel (n / 10) ++ [digitChar (n % 10)]

/-- Decimal digits of a natural number, most significant first. -/
def natToDigits (n : Nat) : List Char := natToDigitsAux (n + 1) n

/-- The generator's `f"{n:06d}"` for a non-negative serial. -/
def format06 (n : Nat) : String :=
  let ds := natToDigits n
  ⟨List.replicate (6 - ds.length) '0' ++ ds⟩

/-- The generator's description sanitization: `\n` to space, `|` to `/`,
`=` to `-`, strip, then truncate to 90 characters. -/
def sanitizeDesc (d : String) : String :=
  let mapped := d.data.map
    (fun ch => if ch = '\n' then ' '
               else if ch = '|' then '/'
               else if ch = '=' then '-' else ch)
  ⟨(pyStripList mapped).take 90⟩

/-- The QR payload text built by `generar_y_imprimir_qrs`. -/
def mkPayload (ns : Nat) (prd dsc lot fec vto : String) : String :=
  "NS=" ++ format06 ns ++ "|" ++ "PRD=" ++ prd ++ "|" ++ "DSC="
    ++ sanitizeDesc dsc ++ "|" ++ "LOT=" ++ lot ++ "|" ++ "FEC=" ++ fec
    ++ "|" ++ "VTO=" ++ vto

/-! ### List and strip lemmas -/

theorem dropWhile_idem (p : Char → Bool) (l : List Char) :
    (l.dropWhile p).dropWhile p = l.dropWhile p := by
  induction l with
  | nil => rfl
  | cons x t ih =>
      by_cases hx : p x = true
      · simp [List.dropWhile, hx, ih]
      · simp [List.dropWhile, hx]

theorem head_dropWhile_false (p : Char → Bool) (l : List Char) (c : Char)
    (h : (l.dropWhile p).head? = some c) : p c = false := by
  induction l with
  | nil => simp [List.dropWhile] at h
  | cons x t ih =>
      by_cases hx : p x = true
      · rw [List.dropWhile_cons_of_pos hx] at h; exact ih h
      · rw [List.dropWhile_cons_of_neg hx] at h
        simp at h
        rw [← h]
        exact Bool.of_not_eq_true hx

theorem dropWhile_eq_self_of_head (p : Char → Bool) (l : List Char)
    (h : ∀ c, l.head? = some c → p c = false) : l.dropWhile p = l := by
  cases l with
  | nil => rfl
  | cons x t => exact List.dropWhile_cons_of_neg (by simp [h x rfl])

theorem dropWhile_eq_self_head (p : Char → Bool) (l : List Char)
    (h : l.dropWhile p = l) (c : Char) (hc : l.head? = some c) : p c = false :=
  head_dropWhile_false p l c (by rw [h]; exact hc)

theorem dropWhile_eq_of_length (p : Char → Bool) (l : List Char)
    (h : (l.dropWhile p).length = l.length) : l.dropWhile p = l := by
  cases l with
  | nil => rfl
  | cons x t =>
      by_cases hx : p x = true
      · exfalso
        rw [List.dropWhile_cons_of_pos hx] at h
        have := (List.dropWhile_sublist (l := t) p).length_le
        simp at h
        omega
      · exact List.dropWhile_cons_of_neg hx

theorem pyStripList_sublist (l : List Char) :
    List.Sublist (pyStripList l) l := by
  unfold pyStripList
  have h1 : List.Sublist (l.dropWhile pySpace) l := List.dropWhile_sublist _
  have h2 : List.Sublist ((l.dropWhile pySpace).reverse.dropWhile pySpace)
      (l.dropWhile pySpace).reverse := List.dropWhile_sublist _
  have h3 : List.Sublist ((l.dropWhile pySpace).reverse.dropWhile pySpace).reverse
      (l.dropWhile pySpace) := by simpa using h2.reverse
  exact h3.trans h1

theorem pyStripList_stages (l : List Char) (h : pyStripList l = l) :
    l.dropWhile pySpace = l ∧ l.reverse.dropWhile pySpace = l.reverse := by
  have hlen1 : (l.dropWhile pySpace).length ≤ l.length :=
    (List.dropWhile_sublist _).length_le
  have hlen2 : ((l.dropWhile pySpace).reverse.dropWhile pySpace).length ≤
      (l.dropWhile pySpace).length := by
    have := (List.dropWhile_sublist (l := (l.dropWhile pySpace).reverse) pySpace).length_le
    simpa using this
  have hlen0 : (pyStripList l).length = l.length := by rw [h]
  have hlen3 : (pyStripList l).length =
      ((l.dropWhile pySpace).reverse.dropWhile pySpace).length := by
    unfold pyStripList; simp
  have heq1 : l.dropWhile pySpace = l :=
    dropWhile_eq_of_length _ _ (by omega)
  refine ⟨heq1, ?_⟩
  have : pyStripList l = (l.reverse.dropWhile pySpace).reverse := by
    unfold pyStripList; rw [heq1]
  have h4 : (l.reverse.dropWhile pySpace).reverse = l := by rw [← this, h]
  have := congrArg List.reverse h4
  simpa using this

theorem pyStripList_head (l : List Char) (h : pyStripList l = l) (c : Char)
    (hc : l.head? = some c) : pySpace c = false :=
  dropWhile_eq_self_head _ _ (pyStripList_stages l h).1 c hc

theorem pyStripList_last (l : List Char) (h : pyStripList l = l) (c : Char)
    (hc : l.getLast? = some c) : pySpace c = false := by
  refine dropWhile_eq_self_head _ _ (pyStripList_stages l h).2 c ?_
  rw [List.head?_reverse]; exact hc

theorem pyStripList_eq_of_ends (l : List Char)
    (h1 : ∀ c, l.head? = some c → pySpace c = false)
    (h2 : ∀ c, l.getLast? = some c → pySpace c = false) :
    pyStripList l = l := by
  unfold pyStripList
  rw [dropWhile_eq_self_of_head pySpace l h1]
  rw [dropWhile_eq_self_of_head pySpace l.reverse
    (fun c hc => h2 c (by rwa [List.head?_reverse] at hc))]
  simp

theorem mem_of_head?_eq_some {l : List Char} {c : Char}
    (h : l.head? = some c) : c ∈ l := by
  cases l <;> simp_all

theorem pyStripList_eq_self_of_all (l : List Char)
    (h : ∀ c ∈ l, pySpace c = false) : pyStripList l = l :=
  pyStripList_eq_of_ends l
    (fun c hc => h c (mem_of_head?_eq_some hc))
    (fun c hc => h c (List.mem_of_getLast?_eq_some hc))

theorem pyStripList_idem (l : List Char) :
    pyStripList (pyStripList l) = pyStripList l := by
  apply pyStripList_eq_of_ends
  · intro c hc
    unfold pyStripList at hc
    rw [List.head?_reverse] at hc
    have hne : (l.dropWhile pySpace).reverse.dropWhile pySpace ≠ [] := by
      intro h0; rw [h0] at hc; simp at hc
    have hpre : (l.dropWhile pySpace).reverse.takeWhile pySpace ++
        (l.dropWhile pySpace).reverse.dropWhile pySpace =
        (l.dropWhile pySpace).reverse :=
      List.takeWhile_append_dropWhile pySpace _
    have hl : (l.dropWhile pySpace).reverse.getLast? = some c := by
      rw [← hpre, List.getLast?_append_of_ne_nil _ hne]; exact hc
    rw [List.getLast?_reverse] at hl
    exact head_dropWhile_false pySpace l c hl
  · intro c hc
    unfold pyStripList at hc
    rw [List.getLast?_reverse] at hc
    exact head_dropWhile_false pySpace _ c hc

theorem pyStrip_idem (s : String) : pyStrip (pyStrip s) = pyStrip s := by
  unfold pyStrip
  rw [pyStripList_idem]

/-! ### String plumbing -/

theorem data_append (a b : String) : (a ++ b).data = a.data ++ b.data :=
  String.data_append a b

theorem string_mk_data (s : String) : String.mk s.data = s := rfl

theorem string_ne_empty_iff (s : String) : s ≠ "" ↔ s.data ≠ [] := by
  cases s
  simp [String.ext_iff]

theorem hasChar_of_mem {s : String} {c : Char} (h : c ∈ s.data) :
    hasChar s c = true := by
  unfold hasChar
  exact List.any_eq_true.mpr ⟨c, h, by simp⟩

theorem mem_of_hasChar {s : String} {c : Char} (h : hasChar s c = true) :
    c ∈ s.data := by
  unfold hasChar at h
  obtain ⟨a, ha, he⟩ := List.any_eq_true.mp h
  simp at he
  rwa [← he]

theorem pyStrip_data (s : String) : (pyStrip s).data = pyStripList s.data := rfl

/-! ### Claim theorems: store behaviour -/

/-- C1: the first insert of a fresh `(id_producto, nro_serie, lote)` triple
returns `OK` and appends the row; every later insert of any record carrying
the same triple — whatever its other fields — returns `DUP` and leaves the
table unchanged; over the pair of inserts the row count grows by exactly
one. -/
theorem claim1_insert_idempotent (db : List ScanRecord) (r r' : ScanRecord)
    (hfresh : hasTriple db r = false) (hsame : sameTriple r r' = true) :
    insertScan db r = (.OK, db ++ [r]) ∧
    (∀ db2, r ∈ db2 → insertScan db2 r' = (.DUP, db2)) ∧
    ((insertScan (insertScan db r).2 r').2).length = db.length + 1 := by
  have h1 : insertScan db r = (.OK, db ++ [r]) := by
    unfold insertScan
    rw [hfresh]
    simp
  have h2 : ∀ db2, r ∈ db2 → insertScan db2 r' = (.DUP, db2) := by
    intro db2 hmem
    unfold insertScan hasTriple
    rw [List.any_eq_true.mpr ⟨r, hmem, hsame⟩]
    simp
  refine ⟨h1, h2, ?_⟩
  rw [h1]
  rw [h2 (db ++ [r]) (by simp)]
  simp

/-- Witness for C1 at concrete records differing only in `descripcion` and
the dates. -/
theorem claim1_witness :
    insertScan []
        { descripcion := "Bolsa 5kg", nro_serie := 1, id_producto := "12",
          lote := "090226", creacion := "2026-02-09", vencimiento := "2026-08-09" } =
      (.OK, [{ descripcion := "Bolsa 5kg", nro_serie := 1, id_producto := "12",
               lote := "090226", creacion := "2026-02-09", vencimiento := "2026-08-09" }]) ∧
    (∀ db2, { descripcion := "Bolsa 5kg", nro_serie := 1, id_producto := "12",
              lote := "090226", creacion := "2026-02-09",
              vencimiento := "2026-08-09" } ∈ db2 →
      insertScan db2
        { descripcion := "otra", nro_serie := 1, id_producto := "12",
          lote := "090226", creacion := "2000-01-01", vencimiento := "2000-02-01" } =
        (.DUP, db2)) ∧
    ((insertScan (insertScan []
        { descripcion := "Bolsa 5kg", nro_serie := 1, id_producto := "12",
          lote := "090226", creacion := "2026-02-09", vencimiento := "2026-08-09" }).2
        { descripcion := "otra", nro_serie := 1, id_producto := "12",
          lote := "090226", creacion := "2000-01-01", vencimiento := "2000-02-01" }).2).length =
      List.length ([] : List ScanRecord) + 1 :=
  claim1_insert_idempotent [] _ _ (by rfl) (by rfl)

/-! ### Claim theorem: decoding depends only on the stripped input -/

/-- C10: the decoder first strips surrounding whitespace, so
`parse_qr_payload raw` and `parse_qr_payload (raw.strip())` always agree; in
particular purely leading or trailing newlines never select the legacy
format. -/
theorem claim10_strip_invariant (raw : String) :
    parse_qr_payload raw = parse_qr_payload (pyStrip raw) := by
  unfold parse_qr_payload
  rw [pyStrip_idem]

/-! ### Claim theorems: format selection -/

/-- C3 counterexample: `"abc\n"` contains a newline and neither `|` nor `=`,
so under the claim it would be decoded as the legacy format (whose outcomes
never include `UnrecognizedFormat`); the decoder instead strips the payload
first and fails with `UnrecognizedFormat`. -/
theorem claim3_counterexample :
    hasChar "abc\n" '\n' = true ∧
    (hasChar "abc\n" '|' && hasChar "abc\n" '=') = false ∧
    parse_qr_payload "abc\n" = .error .UnrecognizedFormat ∧
    parseLegacy "abc\n" = .error .LegacyFieldsMissing :=
  ⟨rfl, rfl, rfl, rfl⟩

/-- C3 amended: format selection is applied to the payload with surrounding
whitespace stripped — primary when the stripped text has both `|` and `=`,
legacy when it has a newline, otherwise `UnrecognizedFormat` (so the empty
string fails with `UnrecognizedFormat`). -/
theorem claim3_format_selection (raw : String) :
    ((hasChar (pyStrip raw) '|' && hasChar (pyStrip raw) '=') = true →
      parse_qr_payload raw = parsePrimaryParts (pySplit '|' (pyStrip raw))) ∧
    ((hasChar (pyStrip raw) '|' && hasChar (pyStrip raw) '=') = false →
      hasChar (pyStrip raw) '\n' = true →
      parse_qr_payload raw = parseLegacy (pyStrip raw)) ∧
    ((hasChar (pyStrip raw) '|' && hasChar (pyStrip raw) '=') = false →
      hasChar (pyStrip raw) '\n' = false →
      parse_qr_payload raw = .error .UnrecognizedFormat) := by
  unfold parse_qr_payload parseStripped
  refine ⟨fun h1 => ?_, fun h1 h2 => ?_, fun h1 h2 => ?_⟩
  · rw [if_pos h1]
  · rw [if_neg (by simp [h1]), if_pos h2]
  · rw [if_neg (by simp [h1]), if_neg (by simp [h2])]

/-- Witness for C3: the empty string is `UnrecognizedFormat`, and a payload
with `|` and `=` goes through primary decoding. -/
theorem claim3_witness :
    parse_qr_payload "" = .error .UnrecognizedFormat ∧
    parse_qr_payload " NS=1|PRD=2 " =
      parsePrimaryParts (pySplit '|' (pyStrip " NS=1|PRD=2 ")) :=
  ⟨(claim3_format_selection "").2.2 rfl rfl,
   (claim3_format_selection " NS=1|PRD=2 ").1 rfl⟩

/-! ### Claim theorem: legacy date normalization -/

/-- C7: for a legacy date value (already stripped, as `pick` returns them):
with a `/` and a valid `%d/%m/%y` reading it is reformatted to ISO
`YYYY-MM-DD`; with a `/` but no valid reading it passes through unchanged;
without a `/` it passes through unchanged. -/
theorem claim7_normalize_date (s : String) (hs : pyStrip s = s) :
    (∀ y m d, hasChar s '/' = true → strptimeDMY s = some (y, m, d) →
      normalize_date s = isoFormat y m d) ∧
    (hasChar s '/' = true → strptimeDMY s = none → normalize_date s = s) ∧
    (hasChar s '/' = false → normalize_date s = s) := by
  unfold normalize_date
  rw [hs]
  refine ⟨fun y m d h1 h2 => ?_, fun h1 h2 => ?_, fun h1 => ?_⟩
  · rw [if_pos h1, h2]
  · rw [if_pos h1, h2]
  · rw [if_neg (by simp [h1])]

/-- Witness for C7: `"09/02/26"` becomes `"2026-02-09"`; the unparsable
`"31/02/26"` and the slash-free `"2026-02-09"` pass through unchanged. -/
theorem claim7_witness :
    normalize_date "09/02/26" = "2026-02-09" ∧
    normalize_date "31/02/26" = "31/02/26" ∧
    normalize_date "2026-02-09" = "2026-02-09" :=
  ⟨(claim7_normalize_date "09/02/26" rfl).1 2026 2 9 rfl rfl,
   (claim7_normalize_date "31/02/26" rfl).2.1 rfl rfl,
   (claim7_normalize_date "2026-02-09" rfl).2.2 rfl⟩

/-! ### Claim theorem: recency query -/

theorem runInserts_all_ok (rs : List ScanRecord) :
    ∀ db : List ScanRecord, (∀ r ∈ rs, hasTriple db r = false) →
    rs.Pairwise (fun a b => sameTriple a b = false) →
    runInserts db rs = (List.replicate rs.length .OK, db ++ rs) := by
  induction rs with
  | nil => intro db _ _; simp [runInserts]
  | cons r rest ih =>
      intro db hfresh hpair
      have hstep : insertScan db r = (.OK, db ++ [r]) := by
        unfold insertScan
        rw [hfresh r (by simp)]
        simp
      have hfresh' : ∀ r' ∈ rest, hasTriple (db ++ [r]) r' = false := by
        intro r' hr'
        unfold hasTriple
        rw [List.any_append]
        have h1 : hasTriple db r' = false := hfresh r' (by simp [hr'])
        unfold hasTriple at h1
        rw [h1]
        have h2 : sameTriple r r' = false :=
          (List.pairwise_cons.mp hpair).1 r' hr'
        simp [h2]
      have := ih (db ++ [r]) hfresh' (List.pairwise_cons.mp hpair).2
      unfold runInserts
      rw [hstep]
      simp only [this]
      simp [List.replicate_succ]

/-- C8: after `N` successful inserts (pairwise-distinct triples into an empty
store), `fetch_latest_scans limit` has `min limit N` rows and its `i`-th row
is the `(N - 1 - i)`-th inserted record — newest first, in strictly
decreasing insertion order, truncated to `limit`. -/
theorem claim8_recent_newest_first (rs : List ScanRecord) (limit : Nat)
    (hpair : rs.Pairwise (fun a b => sameTriple a b = false)) :
    (runInserts [] rs).1 = List.replicate rs.length .OK ∧
    (runInserts [] rs).2 = rs ∧
    (fetch_latest_scans (runInserts [] rs).2 limit).length = min limit rs.length ∧
    ∀ i, i < (fetch_latest_scans (runInserts [] rs).2 limit).length →
      (fetch_latest_scans (runInserts [] rs).2 limit)[i]? =
        rs[rs.length - 1 - i]? := by
  have hrun := runInserts_all_ok rs [] (by intro r _; rfl) hpair
  have h2 : (runInserts [] rs).2 = rs := by rw [hrun]; simp
  refine ⟨by rw [hrun], h2, ?_, ?_⟩
  · rw [h2]; unfold fetch_latest_scans; simp
  · intro i hi
    rw [h2] at hi ⊢
    unfold fetch_latest_scans at hi ⊢
    have hlen : i < min limit rs.length := by
      simpa using hi
    rw [List.getElem?_take_of_lt (by omega)]
    exact List.getElem?_reverse (by omega)

/-- Witness for C8 with three distinct records and `limit = 2`. -/
theorem claim8_witness :
    (runInserts [] [
      { descripcion := "a", nro_serie := 1, id_producto := "1",
        lote := "L", creacion := "c", vencimiento := "v" },
      { descripcion := "b", nro_serie := 2, id_producto := "1",
        lote := "L", creacion := "c", vencimiento := "v" },
      { descripcion := "c", nro_serie := 3, id_producto := "1",
        lote := "L", creacion := "c", vencimiento := "v" }]).1 =
      List.replicate 3 .OK ∧
    (fetch_latest_scans (runInserts [] [
      { descripcion := "a", nro_serie := 1, id_producto := "1",
        lote := "L", creacion := "c", vencimiento := "v" },
      { descripcion := "b", nro_serie := 2, id_producto := "1",
        lote := "L", creacion := "c", vencimiento := "v" },
      { descripcion := "c", nro_serie := 3, id_producto := "1",
        lote := "L", creacion := "c", vencimiento := "v" }]).2 2).length = 2 ∧
    (fetch_latest_scans (runInserts [] [
      { descripcion := "a", nro_serie := 1, id_producto := "1",
        lote := "L", creacion := "c", vencimiento := "v" },
      { descripcion := "b", nro_serie := 2, id_producto := "1",
        lote := "L", creacion := "c", vencimiento := "v" },
      { descripcion := "c", nro_serie := 3, id_producto := "1",
        lote := "L", creacion := "c", vencimiento := "v" }]).2 2)[0]? =
      some { descripcion := "c", nro_serie := 3, id_producto := "1",
             lote := "L", creacion := "c", vencimiento := "v" } := by
  have h := claim8_recent_newest_first [
      { descripcion := "a", nro_serie := 1, id_producto := "1",
        lote := "L", creacion := "c", vencimiento := "v" },
      { descripcion := "b", nro_serie := 2, id_producto := "1",
        lote := "L", creacion := "c", vencimiento := "v" },
      { descripcion := "c", nro_serie := 3, id_producto := "1",
        lote := "L", creacion := "c", vencimiento := "v" }] 2
    (by simp [List.pairwise_cons]; refine ⟨⟨rfl, rfl⟩, rfl⟩)
  refine ⟨h.1, by rw [h.2.2.1]; decide, ?_⟩
  have := h.2.2.2 0 (by rw [h.2.2.1]; simp)
  simpa using this

/-! ### Key/value pair view of the primary format -/

/-- The `(key, value)` pairs of the `=`-containing segments, in segment
order, both halves stripped — the sequence of assignments the primary loop
performs. -/
def pairsOf (parts : List String) : List (String × String) :=
  parts.filterMap
    (fun pt => (splitFirst '=' pt).map (fun q => (pyStrip q.1, pyStrip q.2)))

/-- The value of the last segment that assigns key `k` (the spec's
"duplicate keys: last occurrence wins" reading). -/
def lastValue (parts : List String) (k : String) : Option String :=
  ((pairsOf parts).reverse.find? (fun q => q.1 = k)).map (fun q => q.2)

/-- A required key is missing when no segment assigns it a non-empty value
as its last occurrence. -/
def lastMissing (parts : List String) (k : String) : Bool :=
  match lastValue parts k with
  | none => true
  | some v => v = ""

theorem find?_eq_head?_filter {α : Type} (p : α → Bool) (l : List α) :
    l.find? p = (l.filter p).head? := by
  induction l with
  | nil => rfl
  | cons x t ih =>
      by_cases hx : p x = true
      · rw [List.find?_cons_of_pos _ hx, List.filter_cons_of_pos hx]; rfl
      · rw [List.find?_cons_of_neg _ hx,
            List.filter_cons_of_neg (by simp [hx]), ih]

theorem dictGet_mapReplace (k v k' : String) (d : List (String × String)) :
    dictGet (d.map (fun q => if q.1 = k then (k, v) else q)) k' =
      if k' = k then (if d.any (fun q => q.1 = k) then some v else none)
      else dictGet d k' := by
  induction d with
  | nil =>
      by_cases hk : k' = k <;> simp [dictGet, hk]
  | cons q t ih =>
      unfold dictGet at ih ⊢
      simp only [List.map_cons, List.any_cons]
      by_cases hq : q.1 = k
      · rw [if_pos hq]
        by_cases hk : k' = k
        · rw [List.find?_cons_of_pos _ (by simp [hk])]
          simp [hq, hk]
        · rw [List.find?_cons_of_neg _ (by simp; exact fun h => hk h.symm),
              List.find?_cons_of_neg _
                (by simp; intro h'; exact hk (by rw [← h', hq])),
              ih, if_neg hk, if_neg hk]
      · rw [if_neg hq]
        by_cases hq' : q.1 = k'
        · have hk : ¬ k' = k := fun h => hq (by rw [hq', h])
          rw [List.find?_cons_of_pos _ (by simp [hq']),
              List.find?_cons_of_pos _ (by simp [hq']),
              if_neg hk]
        · rw [List.find?_cons_of_neg _ (by simp [hq']),
              List.find?_cons_of_neg _ (by simp [hq']),
              ih]
          by_cases hk : k' = k
          · rw [if_pos hk, if_pos hk]
            simp only [decide_eq_false hq, Bool.false_or]
          · rw [if_neg hk, if_neg hk]

theorem dictGet_append_single (k v k' : String) (d : List (String × String))
    (h : d.any (fun q => q.1 = k) = false) :
    dictGet (d ++ [(k, v)]) k' = if k' = k then some v else dictGet d k' := by
  unfold dictGet
  rw [List.find?_append]
  by_cases hk : k' = k
  · rw [if_pos hk]
    have hnone : d.find? (fun q => q.1 = k') = none := by
      rw [List.find?_eq_none]
      intro q hq
      simp only [decide_eq_true_eq]
      intro hqe
      have hqk : q.1 = k := by rw [hqe, hk]
      have hcontra : d.any (fun q => q.1 = k) = true :=
        List.any_eq_true.mpr ⟨q, hq, decide_eq_true hqk⟩
      rw [h] at hcontra
      simp at hcontra
    have hone : List.find? (fun q => q.1 = k') [(k, v)] = some (k, v) :=
      List.find?_cons_of_pos _ (by simp [hk])
    rw [hnone, hone]
    rfl
  · rw [if_neg hk]
    have hsing : List.find? (fun q => q.1 = k') [(k, v)] = none := by
      rw [List.find?_eq_none]
      intro q hq
      simp at hq
      subst hq
      simp only [decide_eq_true_eq]
      exact fun h' => hk h'.symm
    rw [hsing]
    cases d.find? (fun q => q.1 = k') <;> rfl

theorem dictGet_dictInsert (d : List (String × String)) (k v k' : String) :
    dictGet (dictInsert d k v) k' = if k' = k then some v else dictGet d k' := by
  unfold dictInsert
  by_cases hany : d.any (fun q => q.1 = k) = true
  · rw [if_pos hany, dictGet_mapReplace, hany]
    simp
  · rw [if_neg hany,
        dictGet_append_single k v k' d (Bool.of_not_eq_true hany)]

theorem dictGet_buildData (parts : List String) :
    ∀ k, dictGet (buildData parts) k = lastValue parts k := by
  induction parts using List.reverseRecOn with
  | nil => intro k; rfl
  | append_singleton parts pt ih =>
      intro k
      unfold buildData at ih ⊢
      unfold lastValue pairsOf at ih ⊢
      rw [List.foldl_append, List.foldl_cons, List.foldl_nil,
          List.filterMap_append, List.reverse_append]
      cases hsp : splitFirst '=' pt with
      | none =>
          simp only [hsp, List.filterMap_cons, List.filterMap_nil,
            Option.map_none', List.reverse_nil, List.nil_append]
          exact ih k
      | some q =>
          simp only [hsp, List.filterMap_cons, List.filterMap_nil,
            Option.map_some', List.reverse_cons, List.reverse_nil,
            List.nil_append, List.singleton_append]
          rw [dictGet_dictInsert]
          by_cases hk : k = pyStrip q.1
          · rw [if_pos hk]
            simp only [List.find?_cons,
              decide_eq_true
                (show (pyStrip q.1, pyStrip q.2).1 = k from hk.symm)]
            rfl
          · rw [if_neg hk]
            have hne : ¬((pyStrip q.1, pyStrip q.2).1 = k) :=
              fun h => hk h.symm
            simp only [List.find?_cons, decide_eq_false hne]
            exact ih k

theorem parsePrimaryParts_missing (parts : List String)
    (hne : requiredKeys.filter (fun k => lastMissing parts k) ≠ []) :
    parsePrimaryParts parts =
      .error (.MissingFields
        (requiredKeys.filter (fun k => lastMissing parts k))) := by
  unfold parsePrimaryParts
  have hmk : ∀ k, missingKey (buildData parts) k = lastMissing parts k := by
    intro k
    unfold missingKey lastMissing
    rw [dictGet_buildData]
  have hfil : requiredKeys.filter (fun k => missingKey (buildData parts) k) =
      requiredKeys.filter (fun k => lastMissing parts k) :=
    List.filter_congr (fun k _ => hmk k)
  simp only [hfil]
  rw [if_neg (by simpa [List.isEmpty_iff] using hne)]

theorem parsePrimaryParts_congr (ps ps' : List String)
    (h : ∀ k ∈ requiredKeys,
      dictGet (buildData ps) k = dictGet (buildData ps') k) :
    parsePrimaryParts ps = parsePrimaryParts ps' := by
  unfold parsePrimaryParts
  have hfil : requiredKeys.filter (fun k => missingKey (buildData ps) k) =
      requiredKeys.filter (fun k => missingKey (buildData ps') k) :=
    List.filter_congr (fun k hk => by unfold missingKey; rw [h k hk])
  simp only [hfil, h "NS" (by decide), h "PRD" (by decide),
    h "DSC" (by decide), h "LOT" (by decide), h "FEC" (by decide),
    h "VTO" (by decide)]

/-- C6: a primary-format input for which some required key has no non-empty
(last-occurrence, trimmed) value fails with `MissingFields` listing exactly
those keys, in the required-key order `NS, PRD, DSC, LOT, FEC, VTO`. -/
theorem claim6_missing_fields (raw : String)
    (hfmt : (hasChar (pyStrip raw) '|' && hasChar (pyStrip raw) '=') = true)
    (hne : requiredKeys.filter
        (fun k => lastMissing (pySplit '|' (pyStrip raw)) k) ≠ []) :
    parse_qr_payload raw =
      .error (.MissingFields (requiredKeys.filter
        (fun k => lastMissing (pySplit '|' (pyStrip raw)) k))) := by
  unfold parse_qr_payload parseStripped
  rw [if_pos hfmt]
  exact parsePrimaryParts_missing _ hne

/-- Witness for C6: an input with everything but `VTO` yields
`MissingFields ["VTO"]`. -/
theorem claim6_witness :
    parse_qr_payload "NS=000001|PRD=12|DSC=Bolsa 5kg|LOT=090226|FEC=2026-02-09" =
      .error (.MissingFields ["VTO"]) :=
  claim6_missing_fields
    "NS=000001|PRD=12|DSC=Bolsa 5kg|LOT=090226|FEC=2026-02-09"
    rfl (by decide)

/-- C5: (a) decoding a well-formed primary segment list — each required key
assigned exactly once, with a non-empty value — is invariant under any
permutation of the segments; (b) when a key is assigned by several segments,
the dict the loop builds holds the value of the last occurrence. -/
theorem claim5_perm_and_last_wins :
    (∀ parts parts' : List String, List.Perm parts parts' →
      (∀ k ∈ requiredKeys,
        ((pairsOf parts).filter (fun q => q.1 = k)).length = 1 ∧
          lastMissing parts k = false) →
      parsePrimaryParts parts = parsePrimaryParts parts') ∧
    (∀ parts k, dictGet (buildData parts) k = lastValue parts k) := by
  constructor
  · intro parts parts' hperm huniq
    apply parsePrimaryParts_congr
    intro k hk
    obtain ⟨hlen, -⟩ := huniq k hk
    obtain ⟨q0, hq0⟩ := List.length_eq_one.mp hlen
    have hpermp : List.Perm ((pairsOf parts).filter (fun q => q.1 = k))
        ((pairsOf parts').filter (fun q => q.1 = k)) := by
      apply List.Perm.filter
      exact hperm.filterMap _
    rw [hq0] at hpermp
    have hq0' : (pairsOf parts').filter (fun q => q.1 = k) = [q0] :=
      List.perm_singleton.mp hpermp.symm
    have hlv : ∀ ps : List String,
        (pairsOf ps).filter (fun q => q.1 = k) = [q0] →
        lastValue ps k = some q0.2 := by
      intro ps hf
      unfold lastValue
      rw [find?_eq_head?_filter, List.filter_reverse, hf]
      rfl
    rw [dictGet_buildData, dictGet_buildData, hlv parts hq0, hlv parts' hq0']
  · exact fun parts k => dictGet_buildData parts k

/-- Witness for C5: a full six-segment payload decodes identically under a
reversal of its segments, and with a duplicated `NS` key the dict holds the
last occurrence's value. -/
theorem claim5_witness :
    parsePrimaryParts ["NS=1", "PRD=2", "DSC=d", "LOT=l", "FEC=f", "VTO=v"] =
      parsePrimaryParts ["VTO=v", "FEC=f", "LOT=l", "DSC=d", "PRD=2", "NS=1"] ∧
    dictGet (buildData ["NS=1", "NS=2"]) "NS" =
      lastValue ["NS=1", "NS=2"] "NS" :=
  ⟨claim5_perm_and_last_wins.1 _ _ (by decide) (by decide),
   claim5_perm_and_last_wins.2 ["NS=1", "NS=2"] "NS"⟩

/-! ### Claim theorems: decoder failure taxonomy -/

/-- The labels `pick` is invoked with in the legacy branch. -/
def pickLabels : List String :=
  ["Num de serie", "N de serie", "N° de serie",
   "ID producto", "Lote", "Creacion", "Creación", "Vencimiento"]

/-- Whether a line would be matched by some `pick` call. -/
def labelMatches (l : String) : Bool :=
  pickLabels.any (fun lbl => pyStartsWith (pyLower l) (pyLower lbl))

/-- The decoder outcomes the specification enumerates: a record, or one of
the four typed failures; the uncaught `IndexError` (`LineNoColon`) is not
among them. -/
def isTypedOutcome : Except DecodeError ScanRecord → Bool
  | .ok _ => true
  | .error .UnrecognizedFormat => true
  | .error (.MissingFields _) => true
  | .error (.InvalidSerial _) => true
  | .error .LegacyFieldsMissing => true
  | .error (.LineNoColon _) => false

theorem except_bind_ok {ε α β : Type} (a : α) (f : α → Except ε β) :
    (Except.ok a : Except ε α) >>= f = f a := rfl

theorem dropWhile_ne_nil_of_mem {c : Char} {l : List Char} (h : c ∈ l) :
    l.dropWhile (fun a => a ≠ c) ≠ [] := by
  induction l with
  | nil => simp at h
  | cons x t ih =>
      by_cases hx : x = c
      · rw [List.dropWhile_cons_of_neg (by simp [hx])]
        simp
      · rw [List.dropWhile_cons_of_pos (by simp [hx])]
        exact ih (by rcases List.mem_cons.mp h with h' | h'
                     · exact absurd h'.symm hx
                     · exact h')

theorem splitFirst_some {c : Char} {s : String} (h : hasChar s c = true) :
    ∃ q, splitFirst c s = some q := by
  have hmem := mem_of_hasChar h
  unfold splitFirst
  cases hd : s.data.dropWhile (fun a => a ≠ c) with
  | nil => exact absurd hd (dropWhile_ne_nil_of_mem hmem)
  | cons x rest => exact ⟨_, rfl⟩

theorem pick_safe (lines : List String) (lbl : String)
    (hyp : ∀ l ∈ lines, labelMatches l = true → hasChar l ':' = true)
    (hlbl : lbl ∈ pickLabels) : ∃ o, pick lines lbl = .ok o := by
  unfold pick
  cases hf : lines.find? (fun l => pyStartsWith (pyLower l) (pyLower lbl)) with
  | none => exact ⟨none, rfl⟩
  | some l =>
      have hmem : l ∈ lines := List.mem_of_find?_eq_some hf
      have hpred : pyStartsWith (pyLower l) (pyLower lbl) = true := by
        have := List.find?_some hf
        simpa using this
      have hmatch : labelMatches l = true :=
        List.any_eq_true.mpr ⟨lbl, hlbl, hpred⟩
      obtain ⟨q, hq⟩ := splitFirst_some (hyp l hmem hmatch)
      simp only [hq]
      exact ⟨some (pyStrip q.2), rfl⟩

theorem orPick_safe (lines lbls : List String)
    (hyp : ∀ l ∈ lines, labelMatches l = true → hasChar l ':' = true)
    (hsub : ∀ lbl ∈ lbls, lbl ∈ pickLabels) :
    ∃ o, orPick lines lbls = .ok o := by
  induction lbls with
  | nil => exact ⟨none, rfl⟩
  | cons lbl rest ih =>
      cases rest with
      | nil => exact pick_safe lines lbl hyp (hsub lbl (by simp))
      | cons lbl2 rest2 =>
          obtain ⟨o, ho⟩ := pick_safe lines lbl hyp (hsub lbl (by simp))
          obtain ⟨o', ho'⟩ := ih (fun x hx => hsub x (List.mem_cons_of_mem _ hx))
          unfold orPick
          rw [ho, except_bind_ok]
          by_cases ht : truthy o = true
          · rw [if_pos ht]
            exact ⟨o, rfl⟩
          · rw [if_neg ht]
            exact ⟨o', ho'⟩

theorem parsePrimaryParts_typed (parts : List String) :
    isTypedOutcome (parsePrimaryParts parts) = true := by
  unfold parsePrimaryParts
  split
  · split <;> rfl
  · rfl

theorem parseLegacy_typed (r : String)
    (hyp : ∀ l ∈ legacyLines r, labelMatches l = true → hasChar l ':' = true) :
    isTypedOutcome (parseLegacy r) = true := by
  obtain ⟨ns, hns⟩ := orPick_safe (legacyLines r)
    ["Num de serie", "N de serie", "N° de serie"] hyp (by decide)
  obtain ⟨prd, hprd⟩ :=
    pick_safe (legacyLines r) "ID producto" hyp (by decide)
  obtain ⟨lote, hlote⟩ :=
    pick_safe (legacyLines r) "Lote" hyp (by decide)
  obtain ⟨cre, hcre⟩ := orPick_safe (legacyLines r)
    ["Creacion", "Creación"] hyp (by decide)
  obtain ⟨vto, hvto⟩ :=
    pick_safe (legacyLines r) "Vencimiento" hyp (by decide)
  unfold parseLegacy
  simp only [hns, hprd, hlote, hcre, hvto, except_bind_ok]
  split
  · split <;> rfl
  · rfl

/-- C2 counterexample: a legacy payload whose `Lote`-labelled line has no
colon makes `pick` raise an uncaught `IndexError` — an outcome outside the
four typed decode failures. -/
theorem claim2_counterexample :
    parse_qr_payload "Lote 1\nx" = .error (.LineNoColon "Lote 1") ∧
    isTypedOutcome (parse_qr_payload "Lote 1\nx") = false :=
  ⟨rfl, rfl⟩

/-- C2 amended: every input on which no legacy line both matches a
recognized field label and lacks a colon decodes to a record or to one of
the four typed failures `UnrecognizedFormat`, `MissingFields`,
`InvalidSerial`, `LegacyFieldsMissing`; a label-matching colon-free line
instead escapes as an uncaught `IndexError`. -/
theorem claim2_typed_outcomes (raw : String)
    (hyp : ∀ l ∈ legacyLines (pyStrip raw),
      labelMatches l = true → hasChar l ':' = true) :
    isTypedOutcome (parse_qr_payload raw) = true := by
  unfold parse_qr_payload parseStripped
  by_cases h1 : (hasChar (pyStrip raw) '|' && hasChar (pyStrip raw) '=') = true
  · rw [if_pos h1]
    exact parsePrimaryParts_typed _
  · rw [if_neg h1]
    by_cases h2 : hasChar (pyStrip raw) '\n' = true
    · rw [if_pos h2]
      exact parseLegacy_typed _ hyp
    · rw [if_neg h2]
      rfl

/-- Witness for C2 on a well-formed legacy payload (every label line has a
colon). -/
theorem claim2_witness :
    isTypedOutcome (parse_qr_payload
      "Detergente X\nNum de serie: 000002\nID producto: 7\nLote: 100125\nCreacion: 10/01/25\nVencimiento: 10/07/25") = true :=
  claim2_typed_outcomes
    "Detergente X\nNum de serie: 000002\nID producto: 7\nLote: 100125\nCreacion: 10/01/25\nVencimiento: 10/07/25"
    (by decide)

/-! ### Claim theorems: serial sign -/

theorem except_bind_error {ε α β : Type} (e : ε) (f : α → Except ε β) :
    (Except.error e : Except ε α) >>= f = .error e := rfl

theorem pyInt_no_minus_nonneg {s : String} {n : Int}
    (h : pyInt s = some n) (hm : hasChar s '-' = false) : 0 ≤ n := by
  unfold pyInt at h
  cases hd : pyStripList s.data with
  | nil => rw [hd] at h; simp at h
  | cons c rest =>
      simp only [hd] at h
      by_cases hp : c = '+'
      · rw [if_pos hp] at h
        obtain ⟨k, -, hk⟩ := Option.map_eq_some'.mp h
        exact hk ▸ Int.ofNat_nonneg k
      · rw [if_neg hp] at h
        by_cases hm' : c = '-'
        · exfalso
          have hmem : c ∈ pyStripList s.data := by rw [hd]; simp
          have hmem' : c ∈ s.data := (pyStripList_sublist s.data).subset hmem
          rw [hm'] at hmem'
          have := hasChar_of_mem (s := s) hmem'
          rw [hm] at this
          simp at this
        · rw [if_neg hm'] at h
          obtain ⟨k, -, hk⟩ := Option.map_eq_some'.mp h
          exact hk ▸ Int.ofNat_nonneg k

theorem parsePrimaryParts_serial {parts : List String} {r : ScanRecord}
    (h : parsePrimaryParts parts = .ok r) :
    pyInt ((dictGet (buildData parts) "NS").getD "") = some r.nro_serie := by
  unfold parsePrimaryParts at h
  by_cases hempty : ((requiredKeys.filter
      (fun k => missingKey (buildData parts) k)).isEmpty : Bool) = true
  · rw [if_pos hempty] at h
    cases hint : pyInt ((dictGet (buildData parts) "NS").getD "") with
    | none => rw [hint] at h; simp at h
    | some n =>
        rw [hint] at h
        simp only [Except.ok.injEq] at h
        rw [← h]
  · rw [if_neg hempty] at h
    simp at h

theorem parseLegacy_serial {r : String} {rec : ScanRecord}
    (h : parseLegacy r = .ok rec) :
    ∃ ns, orPick (legacyLines r)
        ["Num de serie", "N de serie", "N° de serie"] = .ok ns ∧
      pyInt (ns.getD "") = some rec.nro_serie := by
  unfold parseLegacy at h
  cases hns : orPick (legacyLines r)
      ["Num de serie", "N de serie", "N° de serie"] with
  | error e => rw [hns, except_bind_error] at h; simp at h
  | ok ns =>
  rw [hns, except_bind_ok] at h
  cases hprd : pick (legacyLines r) "ID producto" with
  | error e => rw [hprd, except_bind_error] at h; simp at h
  | ok prd =>
  rw [hprd, except_bind_ok] at h
  cases hlote : pick (legacyLines r) "Lote" with
  | error e => rw [hlote, except_bind_error] at h; simp at h
  | ok lote =>
  rw [hlote, except_bind_ok] at h
  cases hcre : orPick (legacyLines r) ["Creacion", "Creación"] with
  | error e => rw [hcre, except_bind_error] at h; simp at h
  | ok cre =>
  rw [hcre, except_bind_ok] at h
  cases hvto : pick (legacyLines r) "Vencimiento" with
  | error e => rw [hvto, except_bind_error] at h; simp at h
  | ok vto =>
  rw [hvto, except_bind_ok] at h
  split at h
  · cases hint : pyInt (ns.getD "") with
    | none => simp [hint] at h
    | some n =>
        simp only [hint, Except.ok.injEq] at h
        exact ⟨ns, rfl, by rw [hint, ← h]⟩
  · simp at h

/-- C9 counterexample: `NS=-5` decodes successfully to a record whose
`nro_serie` is the negative integer `-5`, violating `nro_serie ≥ 0`. -/
theorem claim9_counterexample :
    parse_qr_payload "NS=-5|PRD=1|DSC=d|LOT=l|FEC=f|VTO=v" =
      .ok { descripcion := "d", nro_serie := -5, id_producto := "1",
            lote := "l", creacion := "f", vencimiento := "v" } ∧
    ({ descripcion := "d", nro_serie := -5, id_producto := "1",
       lote := "l", creacion := "f",
       vencimiento := "v" } : ScanRecord).nro_serie < 0 :=
  ⟨rfl, by decide⟩

/-- C9 amended: on every successful decode, `nro_serie` is the Python
`int` value of the serial string the decoder read from the payload — in
the primary format the trimmed last-occurrence `NS` value, in the legacy
format the value the serial-number `pick` chain returned — and it is
non-negative whenever that string contains no minus sign; a leading `-`
in the serial yields a successfully decoded negative `nro_serie`. -/
theorem claim9_serial_sign (raw : String) (rec : ScanRecord)
    (h : parse_qr_payload raw = .ok rec) :
    ((hasChar (pyStrip raw) '|' && hasChar (pyStrip raw) '=') = true →
      pyInt ((dictGet (buildData (pySplit '|' (pyStrip raw))) "NS").getD "") =
        some rec.nro_serie ∧
      (hasChar ((dictGet (buildData (pySplit '|' (pyStrip raw))) "NS").getD "")
          '-' = false → 0 ≤ rec.nro_serie)) ∧
    ((hasChar (pyStrip raw) '|' && hasChar (pyStrip raw) '=') = false →
      ∃ ns, orPick (legacyLines (pyStrip raw))
          ["Num de serie", "N de serie", "N° de serie"] = .ok ns ∧
        pyInt (ns.getD "") = some rec.nro_serie ∧
        (hasChar (ns.getD "") '-' = false → 0 ≤ rec.nro_serie)) := by
  unfold parse_qr_payload parseStripped at h
  constructor
  · intro h1
    rw [if_pos h1] at h
    exact ⟨parsePrimaryParts_serial h,
      fun hm => pyInt_no_minus_nonneg (parsePrimaryParts_serial h) hm⟩
  · intro h1
    rw [if_neg (by simp [h1])] at h
    by_cases h2 : hasChar (pyStrip raw) '\n' = true
    · rw [if_pos h2] at h
      obtain ⟨ns, hns, hs⟩ := parseLegacy_serial h
      exact ⟨ns, hns, hs, fun hm => pyInt_no_minus_nonneg hs hm⟩
    · rw [if_neg h2] at h
      simp at h

/-- Witness for C9 at a primary decode with a digits-only serial: the
decoded `nro_serie` is the `int` value of the payload's own `NS` string,
which has no minus sign, so it is non-negative. -/
theorem claim9_witness :
    pyInt ((dictGet (buildData (pySplit '|'
        (pyStrip "NS=7|PRD=1|DSC=d|LOT=l|FEC=f|VTO=v"))) "NS").getD "") =
      some (7 : Int) ∧
    (hasChar ((dictGet (buildData (pySplit '|'
        (pyStrip "NS=7|PRD=1|DSC=d|LOT=l|FEC=f|VTO=v"))) "NS").getD "")
        '-' = false → (0 : Int) ≤ 7) :=
  (claim9_serial_sign "NS=7|PRD=1|DSC=d|LOT=l|FEC=f|VTO=v"
    { descripcion := "d", nro_serie := 7, id_producto := "1",
      lote := "l", creacion := "f", vencimiento := "v" } rfl).1 rfl

/-! ### Decimal rendering of the generator serial -/

theorem digitChar_spec {d : Nat} (h : d < 10) :
    (digitChar d).isDigit = true ∧ (digitChar d).toNat - 48 = d := by
  interval_cases d <;> exact ⟨by decide, by decide⟩

theorem natToDigitsAux_fuel (n : Nat) : ∀ f1 f2, n < f1 → n < f2 →
    natToDigitsAux f1 n = natToDigitsAux f2 n := by
  induction n using Nat.strong_induction_on with
  | _ n ih =>
      intro f1 f2 h1 h2
      cases f1 with
      | zero => omega
      | succ f1 =>
          cases f2 with
          | zero => omega
          | succ f2 =>
              unfold natToDigitsAux
              by_cases hn : n < 10
              · rw [if_pos hn, if_pos hn]
              · rw [if_neg hn, if_neg hn]
                have hd : n / 10 < n := Nat.div_lt_self (by omega) (by omega)
                rw [ih (n / 10) hd f1 f2 (by omega) (by omega)]

theorem natToDigitsAux_succ (f n : Nat) :
    natToDigitsAux (f + 1) n =
      if n < 10 then [digitChar n] else natToDigitsAux f (n / 10) ++
        [digitChar (n % 10)] := rfl

theorem natToDigits_eq (n : Nat) :
    natToDigits n = if n < 10 then [digitChar n]
      else natToDigits (n / 10) ++ [digitChar (n % 10)] := by
  show natToDigitsAux (n + 1) n = _
  rw [natToDigitsAux_succ]
  by_cases hn : n < 10
  · rw [if_pos hn, if_pos hn]
  · rw [if_neg hn, if_neg hn]
    have hd : n / 10 < n := Nat.div_lt_self (by omega) (by omega)
    rw [natToDigitsAux_fuel (n / 10) n (n / 10 + 1) hd (by omega)]
    rfl

theorem natToDigits_ne_nil (n : Nat) : natToDigits n ≠ [] := by
  rw [natToDigits_eq]
  by_cases hn : n < 10
  · rw [if_pos hn]; simp
  · rw [if_neg hn]; simp

theorem natToDigits_all_digits (n : Nat) :
    (natToDigits n).all Char.isDigit = true := by
  induction n using Nat.strong_induction_on with
  | _ n ih =>
      rw [natToDigits_eq]
      by_cases hn : n < 10
      · rw [if_pos hn]
        simp [(digitChar_spec hn).1]
      · rw [if_neg hn]
        rw [List.all_append]
        have h1 := ih (n / 10) (Nat.div_lt_self (by omega) (by omega))
        have h2 := (digitChar_spec (show n % 10 < 10 by omega)).1
        simp [h1, h2]

theorem foldl_step_natToDigits (n : Nat) : ∀ a : Nat,
    (natToDigits n).foldl (fun acc c => acc * 10 + (c.toNat - 48)) a =
      a * 10 ^ (natToDigits n).length + n := by
  induction n using Nat.strong_induction_on with
  | _ n ih =>
      intro a
      rw [natToDigits_eq]
      by_cases hn : n < 10
      · rw [if_pos hn]
        simp only [List.foldl_cons, List.foldl_nil, List.length_cons,
          List.length_nil, pow_one, zero_add]
        rw [(digitChar_spec hn).2]
      · rw [if_neg hn]
        rw [List.foldl_append]
        have hd : n / 10 < n := Nat.div_lt_self (by omega) (by omega)
        rw [ih (n / 10) hd a]
        simp only [List.foldl_cons, List.foldl_nil, List.length_append,
          List.length_cons, List.length_nil, zero_add]
        rw [(digitChar_spec (show n % 10 < 10 by omega)).2]
        rw [pow_succ]
        have hsplit : (a * 10 ^ (natToDigits (n / 10)).length + n / 10) * 10
            + n % 10 = a * (10 ^ (natToDigits (n / 10)).length * 10)
            + (n / 10 * 10 + n % 10) := by ring
        rw [hsplit]
        congr 1
        omega

theorem digitFold_natToDigits (n : Nat) : digitFold (natToDigits n) = n := by
  unfold digitFold
  rw [foldl_step_natToDigits]
  simp

theorem format06_data (n : Nat) :
    (format06 n).data =
      List.replicate (6 - (natToDigits n).length) '0' ++ natToDigits n := rfl

theorem format06_all_digits (n : Nat) :
    (format06 n).data.all Char.isDigit = true := by
  rw [format06_data, List.all_append]
  have h1 : (List.replicate (6 - (natToDigits n).length) '0').all
      Char.isDigit = true := by
    rw [List.all_eq_true]
    intro c hc
    rw [List.eq_of_mem_replicate hc]
    decide
  simp [h1, natToDigits_all_digits n]

theorem format06_ne_empty (n : Nat) : format06 n ≠ "" := by
  rw [string_ne_empty_iff, format06_data]
  intro hc
  rw [List.append_eq_nil] at hc
  exact natToDigits_ne_nil n hc.2

theorem foldl_step_replicate_zero (k : Nat) :
    (List.replicate k '0').foldl (fun a c => a * 10 + (c.toNat - 48)) 0 = 0 := by
  induction k with
  | zero => rfl
  | succ k ih =>
      rw [List.replicate_succ, List.foldl_cons]
      simpa using ih

theorem digitFold_format06 (n : Nat) : digitFold (format06 n).data = n := by
  rw [format06_data]
  unfold digitFold
  rw [List.foldl_append, foldl_step_replicate_zero]
  have := foldl_step_natToDigits n 0
  unfold digitFold at this
  simpa using this

theorem digit_not_space {c : Char} (h : c.isDigit = true) :
    pySpace c = false := by
  have hne : ∀ c0 : Char, Char.isDigit c0 = false → c ≠ c0 :=
    fun c0 hc0 he => by rw [he] at h; rw [h] at hc0; simp at hc0
  unfold pySpace
  rw [decide_eq_false (hne ' ' (by decide)),
      decide_eq_false (hne '\t' (by decide)),
      decide_eq_false (hne '\n' (by decide)),
      decide_eq_false (hne '\r' (by decide)),
      decide_eq_false (hne '\x0b' (by decide)),
      decide_eq_false (hne '\x0c' (by decide))]
  rfl

theorem digit_ne {c c0 : Char} (h : c.isDigit = true)
    (h0 : c0.isDigit = false) : c ≠ c0 :=
  fun he => by rw [he] at h; rw [h] at h0; simp at h0

theorem pyStrip_eq_self_of_digits {s : String}
    (h : s.data.all Char.isDigit = true) : pyStrip s = s := by
  unfold pyStrip
  rw [pyStripList_eq_self_of_all s.data
    (fun c hc => digit_not_space (List.all_eq_true.mp h c hc))]

theorem pyStrip_format06 (n : Nat) : pyStrip (format06 n) = format06 n :=
  pyStrip_eq_self_of_digits (format06_all_digits n)

theorem pyInt_digits {l : List Char} (hne : l ≠ [])
    (hd : l.all Char.isDigit = true) :
    pyInt ⟨l⟩ = some (Int.ofNat (digitFold l)) := by
  have hstrip : pyStripList (String.mk l).data = l :=
    pyStripList_eq_self_of_all l
      (fun c hc => digit_not_space (List.all_eq_true.mp hd c hc))
  cases l with
  | nil => exact absurd rfl hne
  | cons c rest =>
      have hcd : c.isDigit = true := by
        simp only [List.all_cons, Bool.and_eq_true] at hd
        exact hd.1
      unfold pyInt
      simp only [hstrip]
      rw [if_neg (digit_ne hcd (by decide)), if_neg (digit_ne hcd (by decide))]
      unfold digitsVal
      rw [if_neg (by simp), if_pos hd]
      rfl

theorem pyInt_format06 (n : Nat) :
    pyInt (format06 n) = some (Int.ofNat n) := by
  have h := pyInt_digits
    (l := (format06 n).data)
    (by rw [← string_ne_empty_iff]; exact format06_ne_empty n)
    (format06_all_digits n)
  rw [string_mk_data] at h
  rw [h, digitFold_format06]

/-! ### Generator payload round trip -/

theorem not_mem_char {s : String} {c : Char} (h : hasChar s c = false) :
    ∀ x ∈ s.data, x ≠ c := by
  intro x hx he
  subst he
  rw [hasChar_of_mem hx] at h
  simp at h

theorem hasChar_eq_false_of_digits {s : String}
    (h : s.data.all Char.isDigit = true) {c : Char} (hc : c.isDigit = false) :
    hasChar s c = false := by
  unfold hasChar
  rw [List.any_eq_false]
  intro a ha
  simp only [decide_eq_true_eq]
  exact digit_ne (List.all_eq_true.mp h a ha) hc

theorem sanitizeDesc_no_pipe (d : String) :
    hasChar (sanitizeDesc d) '|' = false := by
  unfold hasChar
  rw [List.any_eq_false]
  intro a ha
  simp only [decide_eq_true_eq]
  have ha1 : a ∈ (pyStripList (d.data.map
      (fun ch => if ch = '\n' then ' '
                 else if ch = '|' then '/'
                 else if ch = '=' then '-' else ch))).take 90 := ha
  have ha2 := (pyStripList_sublist _).subset (List.take_subset _ _ ha1)
  rcases List.mem_map.mp ha2 with ⟨x, -, hfx⟩
  rw [← hfx]
  by_cases h1 : x = '\n'
  · simp [h1]
  · by_cases h2 : x = '|'
    · simp [h1, h2]
    · by_cases h3 : x = '='
      · simp [h1, h2, h3]
      · simp [h1, h2, h3]

theorem seg_no_pipe {key v : String} (hkey : ∀ x ∈ key.data, x ≠ '|')
    (hv : hasChar v '|' = false) : ∀ x ∈ (key ++ v).data, x ≠ '|' := by
  intro x hx
  rw [data_append] at hx
  rcases List.mem_append.mp hx with h | h
  · exact hkey x h
  · exact not_mem_char hv x h

theorem splitCharGo_nil (c : Char) (acc : List Char) :
    splitCharGo c [] acc = [⟨acc.reverse⟩] := rfl

theorem splitCharGo_cons (c x : Char) (rest acc : List Char) :
    splitCharGo c (x :: rest) acc =
      if x = c then ⟨acc.reverse⟩ :: splitCharGo c rest []
      else splitCharGo c rest (x :: acc) := rfl

theorem splitCharGo_no_sep (c : Char) (l : List Char)
    (h : ∀ x ∈ l, x ≠ c) : ∀ acc, splitCharGo c l acc = [⟨acc.reverse ++ l⟩] := by
  induction l with
  | nil => intro acc; rw [splitCharGo_nil, List.append_nil]
  | cons x t ih =>
      intro acc
      rw [splitCharGo_cons]
      rw [if_neg (h x (by simp))]
      rw [ih (fun y hy => h y (by simp [hy])) (x :: acc)]
      congr 1
      apply congrArg String.mk
      simp

theorem splitCharGo_sep (c : Char) (rest : List Char) : ∀ l : List Char,
    (∀ x ∈ l, x ≠ c) → ∀ acc,
    splitCharGo c (l ++ c :: rest) acc =
      ⟨acc.reverse ++ l⟩ :: splitCharGo c rest [] := by
  intro l
  induction l with
  | nil =>
      intro _ acc
      simp only [List.nil_append]
      rw [splitCharGo_cons, if_pos rfl, List.append_nil]
  | cons x t ih =>
      intro h acc
      simp only [List.cons_append]
      rw [splitCharGo_cons]
      rw [if_neg (h x (by simp))]
      rw [ih (fun y hy => h y (by simp [hy])) (x :: acc)]
      congr 2
      simp

theorem getLast?_append_cons (A B : List Char) (c : Char) (hB : B ≠ []) :
    (A ++ c :: B).getLast? = B.getLast? := by
  rw [List.getLast?_append_of_ne_nil A (by simp)]
  rw [show c :: B = [c] ++ B from rfl, List.getLast?_append_of_ne_nil [c] hB]

/-- The cleanliness a generator field needs for lossless decoding: no
surrounding whitespace, non-empty, and free of the `|` separator. -/
def Clean (v : String) : Prop :=
  pyStrip v = v ∧ v ≠ "" ∧ hasChar v '|' = false

theorem parsePrimaryParts_of_buildData {parts : List String}
    {v1 v2 v3 v4 v5 v6 : String} {m : Int}
    (hb : buildData parts = [("NS", v1), ("PRD", v2), ("DSC", v3),
      ("LOT", v4), ("FEC", v5), ("VTO", v6)])
    (h1 : v1 ≠ "") (h2 : v2 ≠ "") (h3 : v3 ≠ "") (h4 : v4 ≠ "")
    (h5 : v5 ≠ "") (h6 : v6 ≠ "") (hm : pyInt v1 = some m) :
    parsePrimaryParts parts =
      .ok { descripcion := v3, nro_serie := m, id_producto := v2,
            lote := v4, creacion := v5, vencimiento := v6 } := by
  have e1 : missingKey [("NS", v1), ("PRD", v2), ("DSC", v3), ("LOT", v4),
      ("FEC", v5), ("VTO", v6)] "NS" = false := decide_eq_false h1
  have e2 : missingKey [("NS", v1), ("PRD", v2), ("DSC", v3), ("LOT", v4),
      ("FEC", v5), ("VTO", v6)] "PRD" = false := decide_eq_false h2
  have e3 : missingKey [("NS", v1), ("PRD", v2), ("DSC", v3), ("LOT", v4),
      ("FEC", v5), ("VTO", v6)] "DSC" = false := decide_eq_false h3
  have e4 : missingKey [("NS", v1), ("PRD", v2), ("DSC", v3), ("LOT", v4),
      ("FEC", v5), ("VTO", v6)] "LOT" = false := decide_eq_false h4
  have e5 : missingKey [("NS", v1), ("PRD", v2), ("DSC", v3), ("LOT", v4),
      ("FEC", v5), ("VTO", v6)] "FEC" = false := decide_eq_false h5
  have e6 : missingKey [("NS", v1), ("PRD", v2), ("DSC", v3), ("LOT", v4),
      ("FEC", v5), ("VTO", v6)] "VTO" = false := decide_eq_false h6
  have hfil : requiredKeys.filter (fun k => missingKey [("NS", v1),
      ("PRD", v2), ("DSC", v3), ("LOT", v4), ("FEC", v5),
      ("VTO", v6)] k) = [] := by
    simp [requiredKeys, e1, e2, e3, e4, e5, e6]
  unfold parsePrimaryParts
  rw [hb, hfil]
  rw [if_pos (show ([] : List String).isEmpty = true from rfl)]
  rw [show (dictGet [("NS", v1), ("PRD", v2), ("DSC", v3), ("LOT", v4),
      ("FEC", v5), ("VTO", v6)] "NS").getD "" = v1 from rfl, hm]
  rfl

/-- C4 counterexample: the generator run on an all-whitespace description
emits a payload whose `DSC` value is empty, and decoding it fails with
`MissingFields ["DSC"]` instead of succeeding. -/
theorem claim4_counterexample :
    sanitizeDesc " " = "" ∧
    parse_qr_payload (mkPayload 1 "12" " " "090226" "2026-02-09" "2026-08-09") =
      .error (.MissingFields ["DSC"]) :=
  ⟨rfl, rfl⟩

/-- C4 amended: for every generator payload whose `id_producto`, `lote`,
`creacion` and `vencimiento` are non-empty, free of `|` and carry no
surrounding whitespace, and whose sanitized truncated description is
non-empty and carries no surrounding whitespace, decoding recovers exactly
the generator's logical fields: `nro_serie` is the serial integer,
`descripcion` the sanitized description, and the other four fields the
embedded values. -/
theorem claim4_roundtrip (ns : Nat) (prd dsc lot fec vto : String)
    (hp : Clean prd) (hl : Clean lot) (hf : Clean fec) (hv : Clean vto)
    (hd : pyStrip (sanitizeDesc dsc) = sanitizeDesc dsc)
    (hd0 : sanitizeDesc dsc ≠ "") :
    parse_qr_payload (mkPayload ns prd dsc lot fec vto) =
      .ok { descripcion := sanitizeDesc dsc, nro_serie := Int.ofNat ns,
            id_producto := prd, lote := lot, creacion := fec,
            vencimiento := vto } := by
  have hdata : (mkPayload ns prd dsc lot fec vto).data =
      ("NS=" ++ format06 ns).data ++ '|' :: (("PRD=" ++ prd).data ++ '|' ::
        (("DSC=" ++ sanitizeDesc dsc).data ++ '|' :: (("LOT=" ++ lot).data
          ++ '|' :: (("FEC=" ++ fec).data ++ '|' ::
            ("VTO=" ++ vto).data)))) := by
    simp [mkPayload, data_append, List.append_assoc,
      show ("|" : String).data = ['|'] from rfl]
  have hhead : (mkPayload ns prd dsc lot fec vto).data.head? = some 'N' := by
    rw [hdata]; rfl
  have hvne : vto.data ≠ [] := (string_ne_empty_iff vto).mp hv.2.1
  have hlast : (mkPayload ns prd dsc lot fec vto).data.getLast? =
      vto.data.getLast? := by
    rw [hdata,
        getLast?_append_cons _ _ _ (by simp),
        getLast?_append_cons _ _ _ (by simp),
        getLast?_append_cons _ _ _ (by simp),
        getLast?_append_cons _ _ _ (by simp),
        getLast?_append_cons _ _ _ (by simp [data_append, hvne]),
        data_append,
        List.getLast?_append_of_ne_nil _ hvne]
  have hs1 : ∀ c, (mkPayload ns prd dsc lot fec vto).data.head? = some c →
      pySpace c = false := by
    intro c hc
    rw [hhead] at hc
    simp at hc
    rw [← hc]
    decide
  have hs2 : ∀ c, (mkPayload ns prd dsc lot fec vto).data.getLast? = some c →
      pySpace c = false := by
    intro c hc
    rw [hlast] at hc
    exact pyStripList_last vto.data (congrArg String.data hv.1) c hc
  have hstrip : pyStrip (mkPayload ns prd dsc lot fec vto) =
      mkPayload ns prd dsc lot fec vto := by
    unfold pyStrip
    rw [pyStripList_eq_of_ends _ hs1 hs2]
  have hpmem : '|' ∈ (mkPayload ns prd dsc lot fec vto).data := by
    rw [hdata]; simp
  have heqmem : '=' ∈ (mkPayload ns prd dsc lot fec vto).data := by
    rw [hdata]
    apply List.mem_append.mpr
    left
    simp [data_append, show ("NS=" : String).data = ['N', 'S', '='] from rfl]
  have hcond : (hasChar (mkPayload ns prd dsc lot fec vto) '|'
      && hasChar (mkPayload ns prd dsc lot fec vto) '=') = true := by
    rw [hasChar_of_mem hpmem, hasChar_of_mem heqmem]
    rfl
  have hseg1 : ∀ x ∈ ("NS=" ++ format06 ns).data, x ≠ '|' :=
    seg_no_pipe (by decide)
      (hasChar_eq_false_of_digits (format06_all_digits ns) (by decide))
  have hseg2 : ∀ x ∈ ("PRD=" ++ prd).data, x ≠ '|' :=
    seg_no_pipe (by decide) hp.2.2
  have hseg3 : ∀ x ∈ ("DSC=" ++ sanitizeDesc dsc).data, x ≠ '|' :=
    seg_no_pipe (by decide) (sanitizeDesc_no_pipe dsc)
  have hseg4 : ∀ x ∈ ("LOT=" ++ lot).data, x ≠ '|' :=
    seg_no_pipe (by decide) hl.2.2
  have hseg5 : ∀ x ∈ ("FEC=" ++ fec).data, x ≠ '|' :=
    seg_no_pipe (by decide) hf.2.2
  have hseg6 : ∀ x ∈ ("VTO=" ++ vto).data, x ≠ '|' :=
    seg_no_pipe (by decide) hv.2.2
  have hsplit : pySplit '|' (mkPayload ns prd dsc lot fec vto) =
      ["NS=" ++ format06 ns, "PRD=" ++ prd, "DSC=" ++ sanitizeDesc dsc,
       "LOT=" ++ lot, "FEC=" ++ fec, "VTO=" ++ vto] := by
    unfold pySplit
    rw [hdata,
        splitCharGo_sep '|' _ _ hseg1 [],
        splitCharGo_sep '|' _ _ hseg2 [],
        splitCharGo_sep '|' _ _ hseg3 [],
        splitCharGo_sep '|' _ _ hseg4 [],
        splitCharGo_sep '|' _ _ hseg5 [],
        splitCharGo_no_sep '|' _ hseg6 []]
    rfl
  have hbuild : buildData ["NS=" ++ format06 ns, "PRD=" ++ prd,
      "DSC=" ++ sanitizeDesc dsc, "LOT=" ++ lot, "FEC=" ++ fec,
      "VTO=" ++ vto] = [("NS", format06 ns), ("PRD", prd),
      ("DSC", sanitizeDesc dsc), ("LOT", lot), ("FEC", fec),
      ("VTO", vto)] := by
    unfold buildData
    simp only [List.foldl_cons, List.foldl_nil,
      show splitFirst '=' ("NS=" ++ format06 ns) =
        some ("NS", format06 ns) from rfl,
      show splitFirst '=' ("PRD=" ++ prd) = some ("PRD", prd) from rfl,
      show splitFirst '=' ("DSC=" ++ sanitizeDesc dsc) =
        some ("DSC", sanitizeDesc dsc) from rfl,
      show splitFirst '=' ("LOT=" ++ lot) = some ("LOT", lot) from rfl,
      show splitFirst '=' ("FEC=" ++ fec) = some ("FEC", fec) from rfl,
      show splitFirst '=' ("VTO=" ++ vto) = some ("VTO", vto) from rfl,
      pyStrip_format06, hp.1, hl.1, hf.1, hv.1, hd]
    rfl
  unfold parse_qr_payload parseStripped
  rw [hstrip, if_pos hcond, hsplit]
  exact parsePrimaryParts_of_buildData hbuild (format06_ne_empty ns)
    hp.2.1 hd0 hl.2.1 hf.2.1 hv.2.1 (pyInt_format06 ns)

/-- Witness for C4 at the spec's example label. -/
theorem claim4_witness :
    parse_qr_payload
        (mkPayload 1 "12" "Bolsa 5kg" "090226" "2026-02-09" "2026-08-09") =
      .ok { descripcion := sanitizeDesc "Bolsa 5kg", nro_serie := Int.ofNat 1,
            id_producto := "12", lote := "090226", creacion := "2026-02-09",
            vencimiento := "2026-08-09" } :=
  claim4_roundtrip 1 "12" "Bolsa 5kg" "090226" "2026-02-09" "2026-08-09"
    ⟨by decide, by decide, by decide⟩ ⟨by decide, by decide, by decide⟩
    ⟨by decide, by decide, by decide⟩ ⟨by decide, by decide, by decide⟩
    (by decide) (by decide)

end QrTalca
